import Mathlib

/-!
Shallow embedding of `src/convert.py` (a human-readable quota string →
token-bucket parameters converter) and proofs about it.

Conventions of the embedding:
* Python strings are modelled as `List Char`; the public entry point takes a
  Lean `String` and works on its character list.
* Every `float` the program manipulates is produced by parsing a decimal
  literal of the form `\d+(\.\d+)?` (or is an integral constant of the unit
  table) and is combined only by multiplication with such constants and one
  final division; these values are modelled exactly: a parsed decimal is a
  `Decimal` (numerator over a power of ten) and the final rate is a rational.
* Python `int(...)` on such a value (truncation toward zero, here of a
  non-negative number) is `Decimal.trunc`; the float comparison
  `seconds == 0` holds exactly when the numerator is zero.
* The four `raise ValueError(...)` sites of the source are tagged by the four
  constructors of `ParseError`, each carrying the message string the source
  builds at that site.
* The regular-expression searches of the source are modelled by explicit
  scanning functions; each follows Python `re` semantics (leftmost match,
  alternatives in written order, greedy quantifiers with the backtracking the
  concrete pattern allows) for the concrete pattern it embeds.
-/

namespace Convert

/-- Python `\s` / `str.strip()` whitespace, for the ASCII range the program
manipulates. -/
def isSpaceC (c : Char) : Bool :=
  c = ' ' || c = '\t' || c = '\n' || c = '\x0d' || c = '\x0b' || c = '\x0c'

/-- ASCII decimal digit, Python `\d` for the ASCII range. -/
def isDigitC (c : Char) : Bool :=
  '0' ≤ c && c ≤ '9'

/-- Python `\w` (word character) restricted to the characters this program
manipulates: ASCII alphanumerics, the underscore, and the vulgar-fraction
symbols of `FRACTIONS` (which are alphanumeric in Python's Unicode sense). -/
def isWordC (c : Char) : Bool :=
  ('a' ≤ c && c ≤ 'z') || ('A' ≤ c && c ≤ 'Z') || ('0' ≤ c && c ≤ '9')
    || c = '_' || c = '¾' || c = '½' || c = '¼'

/-- `str.lower()` for the ASCII range. -/
def lowerChar (c : Char) : Char :=
  if 'A' ≤ c && c ≤ 'Z' then Char.ofNat (c.toNat + 32) else c

/-- `str.lower()` on a whole string. -/
def lowerL (s : List Char) : List Char := s.map lowerChar

/-- `str.strip()`: drop whitespace from both ends. -/
def stripL (s : List Char) : List Char :=
  ((s.dropWhile isSpaceC).reverse.dropWhile isSpaceC).reverse

/-- Python's `needle in hay` substring test. -/
def containsSub (needle : List Char) : List Char → Bool
  | [] => needle.isEmpty
  | c :: cs => needle.isPrefixOf (c :: cs) || containsSub needle cs

/-- Numeric value of a digit string (the integer the digits spell). -/
def digitsToNat (ds : List Char) : ℕ :=
  ds.foldl (fun n c => 10 * n + (c.toNat - 48)) 0

/-- An exact non-negative decimal value `num / 10 ^ pow`: the value Python's
`float(...)` holds for a captured literal `\d+(\.\d+)?` (modelled exactly),
and the value of every product of such a literal with a unit constant. -/
structure Decimal where
  num : ℕ
  pow : ℕ
deriving DecidableEq, Repr

/-- The rational a `Decimal` denotes. -/
def Decimal.toRat (d : Decimal) : ℚ :=
  (d.num : ℚ) / (10 ^ d.pow : ℚ)

/-- The default quantity `1.0`. -/
def Decimal.one : Decimal := ⟨1, 0⟩

/-- Multiplication by an integral constant (`qty * UNIT_SECONDS[unit]`). -/
def Decimal.mulNat (d : Decimal) (n : ℕ) : Decimal := ⟨d.num * n, d.pow⟩

/-- Python `int(...)` on a parsed (non-negative) decimal: truncation toward
zero, which here is the floor `num / 10 ^ pow` in natural division. -/
def Decimal.trunc (d : Decimal) : ℕ := d.num / 10 ^ d.pow

/-- Value of the decimal literal with integer digits `i` and fractional
digits `f`. -/
def decimalVal (i f : List Char) : Decimal :=
  ⟨digitsToNat i * 10 ^ f.length + digitsToNat f, f.length⟩

/-- Read the regex number `\d+(?:\.\d+)?` greedily from the front of `cs`
(which must start with a digit): the leading maximal digit run, and — when a
dot directly followed by a digit comes next — the maximal fractional digit
run. Returns the exact value and the unread rest. -/
def readNumber (cs : List Char) : Decimal × List Char :=
  let i := cs.takeWhile isDigitC
  let rest := cs.dropWhile isDigitC
  match rest with
  | '.' :: r =>
    if (r.head?.map isDigitC).getD false then
      (decimalVal i (r.takeWhile isDigitC), r.dropWhile isDigitC)
    else
      (decimalVal i [], rest)
  | _ => (decimalVal i [], rest)

/-- The separator alternation `(?:per|\/|every)` as a prefix test. -/
def sepAt (r : List Char) : Bool :=
  ("per").toList.isPrefixOf r || ("/").toList.isPrefixOf r
    || ("every").toList.isPrefixOf r

/-- The optional message word `(?:msg|msgs|messages?)?` of the count regex:
its alternatives in the pattern's order, the empty option last. -/
def msgWords : List (List Char) :=
  [("msg").toList, ("msgs").toList, ("messages").toList, ("message").toList, []]

/-- One anchored attempt of the count regex
`(\d+(?:\.\d+)?)\s*(?:msg|msgs|messages?)?\s*(?:per|\/|every)` at the start of
`cs`: the captured number when some alternative completes here. -/
def matchCountAt (cs : List Char) : Option Decimal :=
  if (cs.head?.map isDigitC).getD false then
    let (q, rest) := readNumber cs
    let rest2 := rest.dropWhile isSpaceC
    if msgWords.any (fun w =>
        w.isPrefixOf rest2 && sepAt ((rest2.drop w.length).dropWhile isSpaceC))
    then some q else none
  else none

/-- `re.search` of the count regex: try every start position left to right. -/
def countSearch : List Char → Option Decimal
  | [] => none
  | c :: cs =>
    match matchCountAt (c :: cs) with
    | some q => some q
    | none => countSearch cs

/-- Greedy backtracking of `\s+` in the period regex: up to `k` whitespace
characters may be consumed from `rest`; `(.+)` must then match at least one
non-newline character. The largest consumption is tried first. -/
def periodTail (rest : List Char) : ℕ → Option (List Char)
  | 0 => none
  | k + 1 =>
    match (rest.drop (k + 1)).head? with
    | some c =>
      if c = '\n' then periodTail rest k
      else some ((rest.drop (k + 1)).takeWhile (fun d => !(d = '\n')))
    | none => periodTail rest k

/-- One anchored attempt of the period regex `(?:per|\/|every)\s+(.+)` at the
start of `cs`: the captured group when a separator alternative matches here
followed by whitespace and at least one non-newline character. -/
def matchPeriodAt (cs : List Char) : Option (List Char) :=
  let go : ℕ → Option (List Char) := fun n =>
    let rest := cs.drop n
    periodTail rest (rest.takeWhile isSpaceC).length
  if ("per").toList.isPrefixOf cs then go 3
  else if ("/").toList.isPrefixOf cs then go 1
  else if ("every").toList.isPrefixOf cs then go 5
  else none

/-- `re.search` of the period regex: try every start position left to right. -/
def periodSearch : List Char → Option (List Char)
  | [] => none
  | c :: cs =>
    match matchPeriodAt (c :: cs) with
    | some g => some g
    | none => periodSearch cs

/-- The `UNIT_SECONDS` table, in the source's insertion order (the order the
alternation `"|".join(UNIT_SECONDS.keys())` lists the spellings). -/
def UNIT_SECONDS : List (List Char × ℕ) :=
  [(("second").toList, 1), (("sec").toList, 1), (("secs").toList, 1),
   (("s").toList, 1), (("seconds").toList, 1),
   (("minute").toList, 60), (("min").toList, 60), (("mins").toList, 60),
   (("m").toList, 60), (("minutes").toList, 60),
   (("hour").toList, 3600), (("hr").toList, 3600), (("hrs").toList, 3600),
   (("h").toList, 3600), (("hours").toList, 3600),
   (("day").toList, 86400), (("d").toList, 86400), (("days").toList, 86400),
   (("week").toList, 604800), (("wk").toList, 604800), (("w").toList, 604800),
   (("weeks").toList, 604800),
   (("month").toList, 2592000), (("mo").toList, 2592000),
   (("months").toList, 2592000),
   (("year").toList, 31536000), (("yr").toList, 31536000),
   (("y").toList, 31536000), (("years").toList, 31536000)]

/-- The unit alternation of the duration regex: the first table spelling, in
insertion order, that is a prefix of `r` (no word boundaries, exactly as in
the source's pattern). Returns its seconds value. -/
def findUnit (r : List Char) : Option ℕ :=
  (UNIT_SECONDS.find? (fun p => p.1.isPrefixOf r)).map Prod.snd

/-- One anchored attempt of the duration regex
`(?:(\d+(?:\.\d+)?))?\s*(unit₁|unit₂|…)` at the start of `cs`: the optional
captured quantity and the seconds value of the matched unit. -/
def matchDurAt (cs : List Char) : Option (Option Decimal × ℕ) :=
  if (cs.head?.map isDigitC).getD false then
    let (q, rest) := readNumber cs
    (findUnit (rest.dropWhile isSpaceC)).map (fun us => (some q, us))
  else
    (findUnit (cs.dropWhile isSpaceC)).map
      (fun us => ((none : Option Decimal), us))

/-- `re.search` of the duration regex: try every start position left to
right. -/
def durSearch : List Char → Option (Option Decimal × ℕ)
  | [] => none
  | c :: cs =>
    match matchDurAt (c :: cs) with
    | some r => some r
    | none => durSearch cs

/-- `re.sub(rf"\b{word}\b", repl, s)` for a word whose first and last
characters are word characters (true of every `FRACTIONS` key): scan left to
right, replace each whole-word occurrence, and continue after the matched
text. `prevW` says whether the character just before the current position in
the original string is a word character; `fuel` bounds the recursion (one
unit per step, at least one character consumed per step when `w` is
nonempty). -/
def subWordF (w repl : List Char) : Bool → ℕ → List Char → List Char
  | _, _, [] => []
  | _, 0, s => s
  | prevW, fuel + 1, c :: cs =>
    if w.isPrefixOf (c :: cs) && !prevW
        && !((((c :: cs).drop w.length).head?.map isWordC).getD false) then
      repl ++ subWordF w repl ((w.getLast?.map isWordC).getD false) fuel
        ((c :: cs).drop w.length)
    else
      c :: subWordF w repl (isWordC c) fuel cs

/-- `re.sub(rf"\b{word}\b", repl, s)` with enough fuel for the whole
string. -/
def subWord (w repl s : List Char) : List Char :=
  subWordF w repl false s.length s

/-- The `FRACTIONS` table as substitutions: each key with `str(value)` exactly
as Python prints it (`str(1/3)` is the 16-digit shortest round-trip form). -/
def FRACTION_SUBS : List (List Char × List Char) :=
  [(("half").toList, ("0.5").toList),
   (("quarter").toList, ("0.25").toList),
   (("third").toList, ("0.3333333333333333").toList),
   (("¾").toList, ("0.75").toList),
   (("½").toList, ("0.5").toList),
   (("¼").toList, ("0.25").toList)]

/-- The fraction-normalisation loop of `_parse_duration_seconds`: one
whole-word substitution pass per table entry, in table order. -/
def applyFractions (s : List Char) : List Char :=
  FRACTION_SUBS.foldl (fun acc p => subWord p.1 p.2 acc) s

/-- `re.sub(r"\ba\s+", "", norm)`: remove each whole-word-started `a` followed
by a (maximal) run of whitespace, scanning left to right. -/
def subArticleF : Bool → ℕ → List Char → List Char
  | _, _, [] => []
  | _, 0, s => s
  | prevW, fuel + 1, c :: cs =>
    if c = 'a' && !prevW && ((cs.head?.map isSpaceC).getD false) then
      subArticleF false fuel (cs.dropWhile isSpaceC)
    else
      c :: subArticleF (isWordC c) fuel cs

/-- `re.sub(r"\ba\s+", "", norm)` with enough fuel for the whole string. -/
def subArticle (s : List Char) : List Char :=
  subArticleF false s.length s

/-- The four `raise ValueError(...)` sites of the source, tagged with the
error taxonomy of the specification; each constructor carries the message the
source interpolates at that site. -/
inductive ParseError where
  | countNotFound (msg : List Char)
  | periodNotFound (msg : List Char)
  | durationNotParseable (msg : List Char)
  | zeroDuration (msg : List Char)
deriving DecidableEq, Repr

/-- The result dictionary `{"capacity": ..., "rate_per_sec": ...}`:
`capacity` is `none` for the unlimited sentinel, and the rate is the exact
value of the float the source computes. -/
structure Bucket where
  capacity : Option ℤ
  rate_per_sec : ℚ
deriving DecidableEq, Repr

/-- `_parse_duration_seconds(phrase)`: fraction substitution, article
stripping, then the duration regex; the quantity defaults to `1.0`; seconds
is the quantity times the matched unit's seconds. -/
def parse_duration_seconds (phrase : List Char) : Except ParseError Decimal :=
  let norm := subArticle (applyFractions phrase)
  match durSearch norm with
  | none =>
    .error (.durationNotParseable
      (("Could not parse duration: '").toList ++ phrase ++ ("'").toList))
  | some (oq, us) => .ok ((oq.getD Decimal.one).mulNat us)

/-- `human_limit_to_bucket(text)` on a character list: normalise, the
`unlimited` shortcut, count extraction, period extraction, duration parsing,
the zero-duration check (`seconds == 0` holds exactly when the numerator is
zero), and the rate division. -/
def humanLimitToBucketL (text : List Char) : Except ParseError Bucket :=
  let s := lowerL (stripL text)
  if containsSub (("unlimited").toList) s then
    .ok ⟨none, 0⟩
  else
    match countSearch s with
    | none =>
      .error (.countNotFound
        (("Could not find message count in: '").toList ++ text
          ++ ("'").toList))
    | some q =>
      let capacity : ℤ := q.trunc
      match periodSearch s with
      | none =>
        .error (.periodNotFound
          (("Could not find period in: '").toList ++ text ++ ("'").toList))
      | some g =>
        match parse_duration_seconds (stripL g) with
        | .error e => .error e
        | .ok secs =>
          if secs.num = 0 then
            .error (.zeroDuration (("Duration cannot be zero seconds").toList))
          else
            .ok ⟨some capacity, (capacity : ℚ) / secs.toRat⟩

/-- `human_limit_to_bucket` on a Lean string. -/
def human_limit_to_bucket (text : String) : Except ParseError Bucket :=
  humanLimitToBucketL text.toList

instance {ε α : Type} [DecidableEq ε] [DecidableEq α] :
    DecidableEq (Except ε α) := fun a b =>
  match a, b with
  | .ok x, .ok y =>
    if h : x = y then .isTrue (by rw [h])
    else .isFalse (by intro hc; cases hc; exact h rfl)
  | .error x, .error y =>
    if h : x = y then .isTrue (by rw [h])
    else .isFalse (by intro hc; cases hc; exact h rfl)
  | .ok _, .error _ => .isFalse (by intro hc; cases hc)
  | .error _, .ok _ => .isFalse (by intro hc; cases hc)

/-! Helper lemmas about the embedding's basic functions. -/

lemma isPrefixOf_self_append (x b : List Char) : x.isPrefixOf (x ++ b) = true := by
  induction x with
  | nil => simp [List.isPrefixOf]
  | cons c cs ih => simp [List.isPrefixOf, ih]

lemma containsSub_nil (s : List Char) : containsSub [] s = true := by
  cases s <;> simp [containsSub, List.isPrefixOf]

/-- A string occurring literally in a concatenation is found by the substring
test. -/
lemma containsSub_append (a x b : List Char) : containsSub x (a ++ x ++ b) = true := by
  induction a with
  | nil =>
    cases x with
    | nil => simpa using containsSub_nil b
    | cons c cs =>
      have h := isPrefixOf_self_append (c :: cs) b
      simp only [List.cons_append] at h
      simp [containsSub, h]
  | cons c cs ih =>
    simp only [List.cons_append, containsSub]
    rw [List.append_assoc] at ih
    simp [ih]

lemma Decimal.toRat_nonneg (d : Decimal) : 0 ≤ d.toRat := by
  unfold Decimal.toRat
  positivity

lemma Decimal.toRat_pos (d : Decimal) (h : d.num ≠ 0) : 0 < d.toRat := by
  unfold Decimal.toRat
  have h1 : (0:ℚ) < (d.num : ℚ) := by exact_mod_cast Nat.pos_of_ne_zero h
  have h2 : (0:ℚ) < (10 ^ d.pow : ℚ) := by positivity
  exact div_pos h1 h2

/-- The float comparison `seconds == 0` holds exactly when the numerator is
zero (the embedding's zero test). -/
lemma Decimal.toRat_eq_zero_iff (d : Decimal) : d.toRat = 0 ↔ d.num = 0 := by
  constructor
  · intro h
    by_contra hn
    exact absurd h (ne_of_gt (Decimal.toRat_pos d hn))
  · intro h
    unfold Decimal.toRat
    rw [h]
    simp

/-- Truncation toward zero of a non-negative decimal bounds it from below. -/
lemma Decimal.trunc_le (d : Decimal) : (d.trunc : ℚ) ≤ d.toRat := by
  unfold Decimal.trunc Decimal.toRat
  rw [le_div_iff₀ (by positivity)]
  have := Nat.div_mul_le_self d.num (10 ^ d.pow)
  exact_mod_cast this

/-- Truncation toward zero of a non-negative decimal loses less than one. -/
lemma Decimal.lt_trunc_add_one (d : Decimal) : d.toRat < (d.trunc : ℚ) + 1 := by
  unfold Decimal.trunc Decimal.toRat
  rw [div_lt_iff₀ (by positivity)]
  have h : d.num < (d.num / 10 ^ d.pow + 1) * 10 ^ d.pow :=
    (Nat.div_lt_iff_lt_mul (by positivity)).mp (Nat.lt_succ_self _)
  calc (d.num : ℚ) < ((d.num / 10 ^ d.pow + 1 : ℕ) : ℚ) * ((10 ^ d.pow : ℕ) : ℚ) := by
        exact_mod_cast h
    _ = ((d.num / 10 ^ d.pow : ℕ) + 1) * ((10 : ℚ) ^ d.pow) := by push_cast; ring

/-- Exhaustive description of the branches of `humanLimitToBucketL`. -/
lemma humanLimit_branches (text : List Char) :
    (containsSub (("unlimited").toList) (lowerL (stripL text)) = true ∧
      humanLimitToBucketL text = .ok ⟨none, 0⟩) ∨
    (containsSub (("unlimited").toList) (lowerL (stripL text)) = false ∧
      ((countSearch (lowerL (stripL text)) = none ∧
        humanLimitToBucketL text = .error (.countNotFound
          (("Could not find message count in: '").toList ++ text ++ ("'").toList))) ∨
      (∃ q, countSearch (lowerL (stripL text)) = some q ∧
        ((periodSearch (lowerL (stripL text)) = none ∧
          humanLimitToBucketL text = .error (.periodNotFound
            (("Could not find period in: '").toList ++ text ++ ("'").toList))) ∨
        (∃ g, periodSearch (lowerL (stripL text)) = some g ∧
          ((∃ e, parse_duration_seconds (stripL g) = .error e ∧
            humanLimitToBucketL text = .error e) ∨
          (∃ secs, parse_duration_seconds (stripL g) = .ok secs ∧
            ((secs.num = 0 ∧ humanLimitToBucketL text = .error (.zeroDuration
               (("Duration cannot be zero seconds").toList))) ∨
            (secs.num ≠ 0 ∧ humanLimitToBucketL text
               = .ok ⟨some q.trunc, ((q.trunc : ℤ) : ℚ) / secs.toRat⟩))))))))) := by
  cases hu : containsSub (("unlimited").toList) (lowerL (stripL text)) with
  | true =>
    left
    exact ⟨rfl, by unfold humanLimitToBucketL; simp only [hu]; rfl⟩
  | false =>
    right
    refine ⟨rfl, ?_⟩
    cases hc : countSearch (lowerL (stripL text)) with
    | none =>
      exact Or.inl ⟨rfl, by unfold humanLimitToBucketL; simp only [hu, hc]; rfl⟩
    | some q =>
      right
      refine ⟨q, rfl, ?_⟩
      cases hp : periodSearch (lowerL (stripL text)) with
      | none =>
        exact Or.inl ⟨rfl, by unfold humanLimitToBucketL; simp only [hu, hc, hp]; rfl⟩
      | some g =>
        right
        refine ⟨g, rfl, ?_⟩
        cases hd : parse_duration_seconds (stripL g) with
        | error e =>
          exact Or.inl ⟨e, rfl, by unfold humanLimitToBucketL; simp only [hu, hc, hp, hd]; rfl⟩
        | ok secs =>
          right
          refine ⟨secs, rfl, ?_⟩
          by_cases hz : secs.num = 0
          · exact Or.inl ⟨hz, by
              unfold humanLimitToBucketL
              simp only [hu, hc, hp, hd, hz]
              rfl⟩
          · exact Or.inr ⟨hz, by
              unfold humanLimitToBucketL
              simp only [hu, hc, hp, hd]
              rw [if_neg hz]
              rfl⟩

/-- The only error `_parse_duration_seconds` raises is the duration one, with
the phrase interpolated. -/
lemma parse_duration_error (ph : List Char) (e : ParseError)
    (h : parse_duration_seconds ph = .error e) :
    e = .durationNotParseable
      (("Could not parse duration: '").toList ++ ph ++ ("'").toList) := by
  unfold parse_duration_seconds at h
  cases hd : durSearch (subArticle (applyFractions ph)) with
  | none =>
    simp only [hd] at h
    simp at h
    exact h.symm
  | some p =>
    cases p
    simp only [hd] at h
    simp at h

end Convert

namespace Convert

/-- Classifier used to refute a claimed error class: is the result the
period-not-found error? -/
def isPeriodNotFoundR : Except ParseError Bucket → Bool
  | .error (.periodNotFound _) => true
  | _ => false

/-- C2: for every input whose trimmed, lower-cased form contains the
substring "unlimited", parsing returns absent capacity and rate exactly 0,
raising none of the parse errors, whatever else the string holds. -/
theorem unlimited_shortcut (text : String)
    (h : containsSub (("unlimited").toList) (lowerL (stripL text.toList)) = true) :
    human_limit_to_bucket text = .ok ⟨none, 0⟩ := by
  unfold human_limit_to_bucket humanLimitToBucketL
  simp only [h]
  rfl

/-- Witness for C2 at the input "unlimited messages". -/
theorem unlimited_shortcut_witness :
    containsSub (("unlimited").toList)
      (lowerL (stripL ("unlimited messages").toList)) = true ∧
    human_limit_to_bucket "unlimited messages" = .ok ⟨none, 0⟩ :=
  ⟨by decide, unlimited_shortcut ("unlimited messages") (by decide)⟩

/-- C3 counterexample: "0 messages per week" parses with a present capacity
(0) and a rate of exactly 0, which is not strictly positive. -/
theorem rate_zero_with_present_capacity :
    human_limit_to_bucket "0 messages per week" = .ok ⟨some 0, 0⟩ ∧
    ¬ ((0:ℚ) < 0) := by
  constructor
  · have h : human_limit_to_bucket "0 messages per week"
        = .ok ⟨some 0, ((0:ℤ):ℚ) / Decimal.toRat ⟨604800, 0⟩⟩ := rfl
    rw [h]
    norm_num [Decimal.toRat]
  · norm_num

/-- C3 (amended): on success, an absent capacity comes with rate exactly 0;
a present capacity `c` is non-negative and the rate equals `c` divided by
the period seconds the pipeline itself computed — the ok-value of
`_parse_duration_seconds` on the phrase period extraction captured — which
are strictly positive; hence the rate is non-negative, and strictly
positive whenever `c > 0` (for `c = 0` the rate is 0, not positive). -/
theorem rate_invariant (text : String) (b : Bucket)
    (h : human_limit_to_bucket text = .ok b) :
    (b.capacity = none → b.rate_per_sec = 0) ∧
    (∀ c : ℤ, b.capacity = some c →
      0 ≤ c ∧ ∃ (g : List Char) (d : Decimal),
        periodSearch (lowerL (stripL text.toList)) = some g ∧
        parse_duration_seconds (stripL g) = .ok d ∧
        0 < d.toRat ∧ b.rate_per_sec = (c : ℚ) / d.toRat ∧
        0 ≤ b.rate_per_sec ∧ (0 < c → 0 < b.rate_per_sec)) := by
  unfold human_limit_to_bucket at h
  rcases humanLimit_branches text.toList with ⟨_, he⟩ | ⟨_, hbr⟩
  · rw [he] at h
    obtain rfl : Bucket.mk none 0 = b := Except.ok.inj h
    refine ⟨fun _ => rfl, fun c hc => ?_⟩
    simp at hc
  · rcases hbr with ⟨_, he⟩ | ⟨q, _, hbr⟩
    · rw [he] at h; exact absurd h (by simp)
    rcases hbr with ⟨_, he⟩ | ⟨g, hp, hbr⟩
    · rw [he] at h; exact absurd h (by simp)
    rcases hbr with ⟨e, _, he⟩ | ⟨secs, hd, hbr⟩
    · rw [he] at h; exact absurd h (by simp)
    rcases hbr with ⟨_, he⟩ | ⟨hz, he⟩
    · rw [he] at h; exact absurd h (by simp)
    rw [he] at h
    obtain rfl : Bucket.mk (some (q.trunc : ℤ)) (((q.trunc : ℤ) : ℚ) / secs.toRat) = b :=
      Except.ok.inj h
    refine ⟨fun hc => by simp at hc, fun c hc => ?_⟩
    obtain rfl : (q.trunc : ℤ) = c := Option.some.inj hc
    have hpos : 0 < secs.toRat := Decimal.toRat_pos secs hz
    have hc0 : (0:ℤ) ≤ (q.trunc : ℤ) := Int.ofNat_nonneg _
    refine ⟨hc0, g, secs, hp, hd, hpos, rfl, ?_, ?_⟩
    · exact div_nonneg (by exact_mod_cast hc0) (le_of_lt hpos)
    · intro hcpos
      exact div_pos (by exact_mod_cast hcpos) hpos

/-- Witness for C3 (amended) at the input "20 messages per week". -/
theorem rate_invariant_witness :
    ((Bucket.mk (some 20) (((20:ℤ):ℚ) / Decimal.toRat ⟨604800, 0⟩)).capacity = none →
      (Bucket.mk (some 20) (((20:ℤ):ℚ) / Decimal.toRat ⟨604800, 0⟩)).rate_per_sec = 0) ∧
    (∀ c : ℤ,
      (Bucket.mk (some 20) (((20:ℤ):ℚ) / Decimal.toRat ⟨604800, 0⟩)).capacity = some c →
      0 ≤ c ∧ ∃ (g : List Char) (d : Decimal),
        periodSearch (lowerL (stripL ("20 messages per week").toList)) = some g ∧
        parse_duration_seconds (stripL g) = .ok d ∧
        0 < d.toRat ∧
        (Bucket.mk (some 20) (((20:ℤ):ℚ) / Decimal.toRat ⟨604800, 0⟩)).rate_per_sec
          = (c : ℚ) / d.toRat ∧
        0 ≤ (Bucket.mk (some 20) (((20:ℤ):ℚ) / Decimal.toRat ⟨604800, 0⟩)).rate_per_sec ∧
        (0 < c →
          0 < (Bucket.mk (some 20) (((20:ℤ):ℚ) / Decimal.toRat ⟨604800, 0⟩)).rate_per_sec)) :=
  rate_invariant ("20 messages per week")
    ⟨some 20, ((20:ℤ):ℚ) / Decimal.toRat ⟨604800, 0⟩⟩ rfl

/-- C1 (code bug): the unit table maps "month" to 2,592,000 seconds, yet the
period phrase "1 month" resolves to the abbreviation "m" (60 seconds),
because the alternation lists the spellings in insertion order with no
length sorting and no word boundaries; "1 message per 1 month" therefore
gets rate 1/60, not 1/2592000. -/
theorem month_phrase_resolves_to_minute_unit :
    (("month").toList, 2592000) ∈ UNIT_SECONDS ∧
    parse_duration_seconds (("1 month").toList) = .ok ⟨60, 0⟩ ∧
    Decimal.toRat ⟨60, 0⟩ = 60 ∧
    human_limit_to_bucket "1 message per 1 month" = .ok ⟨some 1, 1/60⟩ ∧
    (1:ℚ)/60 ≠ 1/2592000 := by
  refine ⟨by decide, by decide, by norm_num [Decimal.toRat], ?_, by norm_num⟩
  have h : human_limit_to_bucket "1 message per 1 month"
      = .ok ⟨some 1, ((1:ℤ):ℚ) / Decimal.toRat ⟨60, 0⟩⟩ := rfl
  rw [h]
  norm_num [Decimal.toRat]

/-- C4: a present capacity is the truncation toward zero of the decimal the
count search captured: it is bounded by the captured value and loses less
than one (so "2.9" gives 2, never a rounding up). -/
theorem capacity_truncates (text : String) (b : Bucket) (c : ℤ)
    (h : human_limit_to_bucket text = .ok b) (hc : b.capacity = some c) :
    ∃ q : Decimal, countSearch (lowerL (stripL text.toList)) = some q ∧
      c = (q.trunc : ℤ) ∧ (c : ℚ) ≤ q.toRat ∧ q.toRat < (c : ℚ) + 1 := by
  unfold human_limit_to_bucket at h
  rcases humanLimit_branches text.toList with ⟨_, he⟩ | ⟨_, hbr⟩
  · rw [he] at h
    obtain rfl : Bucket.mk none 0 = b := Except.ok.inj h
    simp at hc
  rcases hbr with ⟨_, he⟩ | ⟨q, hq, hbr⟩
  · rw [he] at h; exact absurd h (by simp)
  rcases hbr with ⟨_, he⟩ | ⟨g, _, hbr⟩
  · rw [he] at h; exact absurd h (by simp)
  rcases hbr with ⟨e, _, he⟩ | ⟨secs, _, hbr⟩
  · rw [he] at h; exact absurd h (by simp)
  rcases hbr with ⟨_, he⟩ | ⟨hz, he⟩
  · rw [he] at h; exact absurd h (by simp)
  rw [he] at h
  obtain rfl : Bucket.mk (some (q.trunc : ℤ)) (((q.trunc : ℤ) : ℚ) / secs.toRat) = b :=
    Except.ok.inj h
  obtain rfl : (q.trunc : ℤ) = c := Option.some.inj hc
  refine ⟨q, hq, rfl, ?_, ?_⟩
  · have := Decimal.trunc_le q
    exact_mod_cast this
  · have := Decimal.lt_trunc_add_one q
    exact_mod_cast this

/-- Witness for C4 at the input "2.9 messages per week": the captured
decimal is 2.9 and the capacity is 2. -/
theorem capacity_truncates_witness :
    countSearch (lowerL (stripL ("2.9 messages per week").toList)) = some ⟨29, 1⟩ ∧
    (∃ q : Decimal, countSearch (lowerL (stripL ("2.9 messages per week").toList)) = some q ∧
      (2:ℤ) = (q.trunc : ℤ) ∧ ((2:ℤ) : ℚ) ≤ q.toRat ∧ q.toRat < ((2:ℤ) : ℚ) + 1) :=
  ⟨by decide, capacity_truncates ("2.9 messages per week")
    ⟨some 2, ((2:ℤ):ℚ) / Decimal.toRat ⟨604800, 0⟩⟩ 2 rfl rfl⟩

/-- C5: when the count and period are extracted and the period phrase's
duration evaluates to exactly zero seconds, parsing fails with the
zero-duration error (so the rate division is never reached). -/
theorem zero_duration_error (text : String) (q : Decimal) (g : List Char) (d : Decimal)
    (h0 : containsSub (("unlimited").toList) (lowerL (stripL text.toList)) = false)
    (h1 : countSearch (lowerL (stripL text.toList)) = some q)
    (h2 : periodSearch (lowerL (stripL text.toList)) = some g)
    (h3 : parse_duration_seconds (stripL g) = .ok d)
    (h4 : d.toRat = 0) :
    human_limit_to_bucket text = .error (.zeroDuration
      (("Duration cannot be zero seconds").toList)) := by
  have hz : d.num = 0 := (Decimal.toRat_eq_zero_iff d).mp h4
  unfold human_limit_to_bucket humanLimitToBucketL
  simp only [h0, h1, h2, h3, hz]
  rfl

/-- Witness for C5 at the input "10 messages per 0 seconds". -/
theorem zero_duration_error_witness :
    parse_duration_seconds (stripL (("0 seconds").toList)) = .ok ⟨0, 0⟩ ∧
    human_limit_to_bucket "10 messages per 0 seconds" = .error (.zeroDuration
      (("Duration cannot be zero seconds").toList)) :=
  ⟨by decide, zero_duration_error ("10 messages per 0 seconds") ⟨10, 0⟩
    (("0 seconds").toList) ⟨0, 0⟩ (by decide) (by decide) (by decide) (by decide)
    (by norm_num [Decimal.toRat])⟩

/-- C6: fraction substitution precedes article stripping, so the period
"half a week" normalises to "0.5 week" and yields exactly the seconds of
"0.5 weeks": 302400 = 604800 * 0.5; whole parses agree too. -/
theorem half_a_week_eq_half_weeks :
    parse_duration_seconds (("half a week").toList) = .ok ⟨3024000, 1⟩ ∧
    parse_duration_seconds (("0.5 weeks").toList) = .ok ⟨3024000, 1⟩ ∧
    Decimal.toRat ⟨3024000, 1⟩ = 302400 ∧
    human_limit_to_bucket "11 messages every half a week"
      = human_limit_to_bucket "11 messages every 0.5 weeks" := by
  refine ⟨by decide, by decide, by norm_num [Decimal.toRat], ?_⟩
  have h1 : human_limit_to_bucket "11 messages every half a week"
      = .ok ⟨some 11, ((11:ℤ):ℚ) / Decimal.toRat ⟨3024000, 1⟩⟩ := rfl
  have h2 : human_limit_to_bucket "11 messages every 0.5 weeks"
      = .ok ⟨some 11, ((11:ℤ):ℚ) / Decimal.toRat ⟨3024000, 1⟩⟩ := rfl
  rw [h1, h2]

/-- C7: a recognised unit with no captured leading quantity gets the default
quantity 1.0, and "20 messages per week" parses to capacity 20 with rate
20/604800. -/
theorem default_quantity_one :
    (∀ (ph : List Char) (us : ℕ),
      durSearch (subArticle (applyFractions ph)) = some (none, us) →
      parse_duration_seconds ph = .ok (Decimal.one.mulNat us) ∧
      (Decimal.one.mulNat us).toRat = (us : ℚ)) ∧
    human_limit_to_bucket "20 messages per week" = .ok ⟨some 20, 20/604800⟩ := by
  constructor
  · intro ph us hd
    constructor
    · unfold parse_duration_seconds
      simp only [hd]
      rfl
    · simp [Decimal.toRat, Decimal.mulNat, Decimal.one]
  · have h : human_limit_to_bucket "20 messages per week"
        = .ok ⟨some 20, ((20:ℤ):ℚ) / Decimal.toRat ⟨604800, 0⟩⟩ := rfl
    rw [h]
    norm_num [Decimal.toRat]

/-- Witness for C7's general part at the bare period phrase "week". -/
theorem default_quantity_one_witness :
    durSearch (subArticle (applyFractions (("week").toList))) = some (none, 604800) ∧
    parse_duration_seconds (("week").toList) = .ok (Decimal.one.mulNat 604800) ∧
    (Decimal.one.mulNat 604800).toRat = ((604800 : ℕ) : ℚ) :=
  ⟨by decide, (default_quantity_one.1 (("week").toList) 604800 (by decide)).1,
    (default_quantity_one.1 (("week").toList) 604800 (by decide)).2⟩

/-- C8 counterexample: "20 messages" (no separator) does not fail with the
period-not-found error. -/
theorem no_separator_not_period_error :
    isPeriodNotFoundR (human_limit_to_bucket "20 messages") = false := by decide

/-- C8 (amended): "20 messages" (no separator) fails with the count error —
the count pattern itself requires a separator after the number, so a missing
separator surfaces as count-not-found. -/
theorem no_separator_count_error :
    human_limit_to_bucket "20 messages" = .error (.countNotFound
      (("Could not find message count in: '20 messages'").toList)) := by decide

/-- C9 counterexample: the zero-duration error's message is the constant
"Duration cannot be zero seconds"; it contains neither the offending period
"0 seconds" nor the count "10" of the input. -/
theorem zero_duration_message_constant :
    human_limit_to_bucket "10 messages per 0 seconds" = .error (.zeroDuration
      (("Duration cannot be zero seconds").toList)) ∧
    containsSub (("10").toList) (("Duration cannot be zero seconds").toList) = false ∧
    containsSub (("0 seconds").toList)
      (("Duration cannot be zero seconds").toList) = false := by
  decide

/-- C9 (amended): the count and period errors carry messages containing the
original input, and the duration error a message containing the offending
(normalised) period phrase; the zero-duration error's message is a fixed
string with no part of the input. -/
theorem error_message_shapes (text : String) (e : ParseError)
    (h : human_limit_to_bucket text = .error e) :
    (∀ m, e = .countNotFound m → containsSub text.toList m = true) ∧
    (∀ m, e = .periodNotFound m → containsSub text.toList m = true) ∧
    (∀ m, e = .durationNotParseable m →
      ∃ g, periodSearch (lowerL (stripL text.toList)) = some g ∧
        containsSub (stripL g) m = true) ∧
    (∀ m, e = .zeroDuration m → m = ("Duration cannot be zero seconds").toList) := by
  unfold human_limit_to_bucket at h
  rcases humanLimit_branches text.toList with ⟨_, he⟩ | ⟨_, hbr⟩
  · rw [he] at h; exact absurd h (by simp)
  rcases hbr with ⟨_, he⟩ | ⟨q, _, hbr⟩
  · rw [he] at h
    obtain rfl : ParseError.countNotFound
        (("Could not find message count in: '").toList ++ text.toList ++ ("'").toList)
        = e := Except.error.inj h
    refine ⟨fun m hm => ?_, fun m hm => absurd hm (by simp),
      fun m hm => absurd hm (by simp), fun m hm => absurd hm (by simp)⟩
    obtain rfl := (ParseError.countNotFound.inj hm.symm)
    exact containsSub_append _ _ _
  rcases hbr with ⟨_, he⟩ | ⟨g, hp, hbr⟩
  · rw [he] at h
    obtain rfl : ParseError.periodNotFound
        (("Could not find period in: '").toList ++ text.toList ++ ("'").toList)
        = e := Except.error.inj h
    refine ⟨fun m hm => absurd hm (by simp), fun m hm => ?_,
      fun m hm => absurd hm (by simp), fun m hm => absurd hm (by simp)⟩
    obtain rfl := (ParseError.periodNotFound.inj hm.symm)
    exact containsSub_append _ _ _
  rcases hbr with ⟨e0, hdur, he⟩ | ⟨secs, _, hbr⟩
  · rw [he] at h
    obtain rfl : e0 = e := Except.error.inj h
    have hshape := parse_duration_error (stripL g) e0 hdur
    subst hshape
    refine ⟨fun m hm => absurd hm (by simp), fun m hm => absurd hm (by simp),
      fun m hm => ?_, fun m hm => absurd hm (by simp)⟩
    obtain rfl := (ParseError.durationNotParseable.inj hm)
    exact ⟨g, hp, containsSub_append _ _ _⟩
  rcases hbr with ⟨_, he⟩ | ⟨hz, he⟩
  · rw [he] at h
    obtain rfl : ParseError.zeroDuration (("Duration cannot be zero seconds").toList)
        = e := Except.error.inj h
    refine ⟨fun m hm => absurd hm (by simp), fun m hm => absurd hm (by simp),
      fun m hm => absurd hm (by simp), fun m hm => ?_⟩
    obtain rfl := (ParseError.zeroDuration.inj hm.symm)
    rfl
  · rw [he] at h; exact absurd h (by simp)

/-- Witness for C9 (amended): the count error for "messages per week"
contains the input. -/
theorem error_message_shapes_witness :
    containsSub (("messages per week").toList)
      (("Could not find message count in: 'messages per week'").toList) = true :=
  (error_message_shapes ("messages per week")
    (.countNotFound (("Could not find message count in: 'messages per week'").toList))
    (by decide)).1
    (("Could not find message count in: 'messages per week'").toList) rfl

/-- C10: for "20/day" the count search succeeds with capacity 20 (the slash
is a valid separator for the count pattern), yet period extraction demands
whitespace after the separator and fails, so parsing ends with the
period-not-found error. -/
theorem slash_without_space_period_error :
    countSearch (lowerL (stripL ("20/day").toList)) = some ⟨20, 0⟩ ∧
    Decimal.trunc ⟨20, 0⟩ = 20 ∧
    human_limit_to_bucket "20/day" = .error (.periodNotFound
      (("Could not find period in: '20/day'").toList)) := by
  decide

end Convert
